import Mathlib

/-!
Shallow embedding of the GPU context pool (`WebGLContextManager` in
src/src/MediaEffect.ts) of the cntrl-site/effects repository.

Modelling choices:
* A WebGL2 context object is identified by a natural-number handle (`gl`);
  fresh handles are drawn from a `nextId` counter in the manager state.
* A logical target (`HTMLCanvasElement` passed by the caller) is a `Canvas`
  record with an identity and dimensions; the `WeakMap` from canvases to
  contexts becomes an association list keyed by canvas identity.
* `Date.now()` becomes an explicit `now : Nat` argument of each operation.
* `canvas.getContext('webgl2')` may return null on the real platform; this is
  an explicit `createOk : Bool` argument of `getContext`.
* The GPU-visible state of a context (bound program, buffers, texture,
  framebuffer, renderbuffer, and whether the color buffer was last cleared to
  transparent black) is carried in each entry, so that the cleanup performed
  by `cleanupContext` / `releaseContext` is observable.
* JavaScript mutates the entry object found by `Array.prototype.find`; the
  embedding applies the update to the first list element satisfying the same
  predicate (`updateFirst`).  Entries are identified by their context handle
  `gl`, matching the `find(e => e.gl === context)` pattern of the source.
-/

namespace Effects

/-- GPU-visible state of one WebGL2 context: the bindings touched by
`cleanupContext` plus whether the color buffer currently holds the
transparent-black clear color. -/
structure GLState where
  program : Option Nat
  arrayBuffer : Option Nat
  elementArrayBuffer : Option Nat
  texture2D : Option Nat
  framebuffer : Option Nat
  renderbuffer : Option Nat
  colorTransparent : Bool
  deriving DecidableEq, Repr

/-- State of a freshly created WebGL2 context: nothing bound, drawing buffer
initially blank (transparent). -/
def GLState.fresh : GLState :=
  { program := none, arrayBuffer := none, elementArrayBuffer := none,
    texture2D := none, framebuffer := none, renderbuffer := none,
    colorTransparent := true }

/-- One pool entry (`ContextEntry` in the source): a context handle, its
private backing canvas dimensions, the in-use flag and LRU timestamp. -/
structure ContextEntry where
  gl : Nat
  canvasWidth : Nat
  canvasHeight : Nat
  isInUse : Bool
  lastUsed : Nat
  glState : GLState
  deriving DecidableEq, Repr

/-- A caller-supplied logical target (`HTMLCanvasElement`): identity plus
current dimensions. -/
structure Canvas where
  id : Nat
  width : Nat
  height : Nat
  deriving DecidableEq, Repr

/-- State of a `WebGLContextManager`: the ordered pool, the capacity
(`maxContexts`, 14 in the source), the canvas-to-context `WeakMap` as an
association list from canvas identity to context handle, and the counter
supplying fresh context handles. -/
structure ManagerState where
  contexts : List ContextEntry
  maxContexts : Nat
  contextMap : List (Nat × Nat)
  nextId : Nat
  deriving DecidableEq, Repr

/-- Result of `getStats`. -/
structure Stats where
  total : Nat
  inUse : Nat
  free : Nat
  deriving DecidableEq, Repr

/-- A freshly constructed manager with the given capacity; the source fixes
`maxContexts = 14`. -/
def initState (cap : Nat) : ManagerState :=
  { contexts := [], maxContexts := cap, contextMap := [], nextId := 0 }

/-- WeakMap.get: value of the first pair with the given key. -/
def mapGet (m : List (Nat × Nat)) (k : Nat) : Option Nat :=
  (m.find? (fun p => p.1 == k)).map (fun p => p.2)

/-- WeakMap.set: replace the value under an existing key, else append. -/
def mapSet (m : List (Nat × Nat)) (k v : Nat) : List (Nat × Nat) :=
  if m.any (fun p => p.1 == k) then
    m.map (fun p => if p.1 == k then (k, v) else p)
  else
    m ++ [(k, v)]

/-- WeakMap.delete: drop every pair with the given key. -/
def mapDelete (m : List (Nat × Nat)) (k : Nat) : List (Nat × Nat) :=
  m.filter (fun p => !(p.1 == k))

/-- Apply `f` to the first element satisfying `p`, as JavaScript does when it
mutates the object returned by `Array.prototype.find`. -/
def updateFirst {α : Type} : List α → (α → Bool) → (α → α) → List α
  | [], _, _ => []
  | x :: xs, p, f => if p x then f x :: xs else x :: updateFirst xs p f

namespace WebGLContextManager

/-- markContextAsUsed: refresh `lastUsed` on the entry owning `context`. -/
def markContextAsUsed (s : ManagerState) (context : Nat) (now : Nat) :
    ManagerState :=
  let cs := updateFirst s.contexts (fun e => e.gl == context)
    (fun e => { e with lastUsed := now })
  { s with contexts := cs }

/-- assignContextToCanvas: mark the entry in use, refresh its timestamp, bind
the target canvas to its context, and resize the backing canvas to the
target's dimensions. -/
def assignContextToCanvas (s : ManagerState) (gl : Nat) (targetCanvas : Canvas)
    (now : Nat) : ManagerState :=
  let cs := updateFirst s.contexts (fun e => e.gl == gl)
    (fun e => { e with isInUse := true, lastUsed := now,
                       canvasWidth := targetCanvas.width,
                       canvasHeight := targetCanvas.height })
  { s with contexts := cs,
           contextMap := mapSet s.contextMap targetCanvas.id gl }

/-- A pool entry as built by createNewContext: a 1x1 hidden backing canvas,
not yet in use, timestamped with the creation time. -/
def freshEntry (gl now : Nat) : ContextEntry :=
  { gl := gl, canvasWidth := 1, canvasHeight := 1,
    isInUse := false, lastUsed := now, glState := GLState.fresh }

/-- createNewContext: build a hidden 1x1 backing canvas and request a webgl2
context (`createOk` models whether the platform grants one); on success push
a fresh entry (`isInUse = false`, `lastUsed = now`) onto the pool. -/
def createNewContext (s : ManagerState) (now : Nat) (createOk : Bool) :
    Option (ManagerState × ContextEntry) :=
  if createOk then
    let cs := s.contexts ++ [freshEntry s.nextId now]
    some ({ s with contexts := cs, nextId := s.nextId + 1 },
          freshEntry s.nextId now)
  else
    none

/-- findOldestUnusedContext: among the entries with `isInUse = false`, reduce
to the one with the smallest `lastUsed` (strict comparison, so ties keep the
earlier element); `none` when every entry is in use. -/
def findOldestUnusedContext (s : ManagerState) : Option ContextEntry :=
  match s.contexts.filter (fun e => !e.isInUse) with
  | [] => none
  | h :: t =>
    some (t.foldl
      (fun oldest current =>
        if current.lastUsed < oldest.lastUsed then current else oldest) h)

/-- cleanupContext: unbind program, array buffer, element array buffer,
texture, framebuffer and renderbuffer on the entry owning `gl`, then clear
its color buffer to transparent black. -/
def cleanupContext (s : ManagerState) (gl : Nat) : ManagerState :=
  let cs := updateFirst s.contexts (fun e => e.gl == gl)
    (fun e => { e with glState :=
      { program := none, arrayBuffer := none, elementArrayBuffer := none,
        texture2D := none, framebuffer := none, renderbuffer := none,
        colorTransparent := true } })
  { s with contexts := cs }

/-- Tail of `getContext` (source lines 394-401): try to repurpose the oldest
unused entry, after cleaning its GPU state; otherwise return null. -/
def evictionStep (s : ManagerState) (canvas : Canvas) (now : Nat) :
    ManagerState × Option Nat :=
  match findOldestUnusedContext s with
  | some oldestEntry =>
    let s1 := cleanupContext s oldestEntry.gl
    (assignContextToCanvas s1 oldestEntry.gl canvas now, some oldestEntry.gl)
  | none => (s, none)

/-- getContext: cache hit on an existing binding; else take the first free
entry; else create a new entry while under capacity; else fall through to the
eviction step; else null. -/
def getContext (s : ManagerState) (canvas : Canvas) (now : Nat)
    (createOk : Bool) : ManagerState × Option Nat :=
  match mapGet s.contextMap canvas.id with
  | some existingContext =>
    (markContextAsUsed s existingContext now, some existingContext)
  | none =>
    match s.contexts.find? (fun e => !e.isInUse) with
    | some freeEntry =>
      (assignContextToCanvas s freeEntry.gl canvas now, some freeEntry.gl)
    | none =>
      if s.contexts.length < s.maxContexts then
        match createNewContext s now createOk with
        | some (s1, newEntry) =>
          (assignContextToCanvas s1 newEntry.gl canvas now, some newEntry.gl)
        | none => evictionStep s canvas now
      else
        evictionStep s canvas now

/-- releaseContext: no-op when the canvas has no binding; otherwise mark the
bound entry free, stamp `lastUsed` with the release time, clear its color
buffer to transparent, and delete the binding. -/
def releaseContext (s : ManagerState) (canvas : Canvas) (now : Nat) :
    ManagerState :=
  match mapGet s.contextMap canvas.id with
  | none => s
  | some context =>
    let cs := updateFirst s.contexts (fun e => e.gl == context)
      (fun e => { e with isInUse := false, lastUsed := now,
                         glState := { e.glState with colorTransparent := true } })
    { s with contexts := cs,
             contextMap := mapDelete s.contextMap canvas.id }

/-- renderToCanvas: copy the backing canvas of the entry owning `sourceGl`
onto the visible target via its 2d context (`target2dOk` models whether
`getContext('2d')` succeeds).  The result records the dimensions drawn onto
the target, `none` when nothing was drawn; the pool state is never touched. -/
def renderToCanvas (s : ManagerState) (sourceGl : Nat) (target2dOk : Bool) :
    Option (Nat × Nat) :=
  if target2dOk then
    match s.contexts.find? (fun e => e.gl == sourceGl) with
    | some sourceEntry => some (sourceEntry.canvasWidth, sourceEntry.canvasHeight)
    | none => none
  else
    none

/-- updateContextSize: resize the backing canvas of the entry owning `gl`;
nothing happens when no entry owns it. -/
def updateContextSize (s : ManagerState) (gl width height : Nat) :
    ManagerState :=
  let cs := updateFirst s.contexts (fun e => e.gl == gl)
    (fun e => { e with canvasWidth := width, canvasHeight := height })
  { s with contexts := cs }

/-- getStats: read-only snapshot of pool occupancy. -/
def getStats (s : ManagerState) : Stats :=
  { total := s.contexts.length,
    inUse := (s.contexts.filter (fun e => e.isInUse)).length,
    free := (s.contexts.filter (fun e => !e.isInUse)).length }

end WebGLContextManager

/-- GL-state footprint of a successful `MediaEffect.render` pass
(src/src/MediaEffect.ts lines 115-203) on the context it draws with: it
leaves a program in use (`useProgram`), an `ARRAY_BUFFER` bound
(`bindBuffer`), a `TEXTURE_2D` bound (`bindTexture`), and the color buffer no
longer transparent after `drawArrays`. -/
def MediaEffect.renderPass (s : ManagerState) (gl program buffer texture : Nat) :
    ManagerState :=
  let cs := updateFirst s.contexts (fun e => e.gl == gl) (fun e =>
    let gs := { e.glState with
                program := some program, arrayBuffer := some buffer,
                texture2D := some texture, colorTransparent := false }
    { e with glState := gs })
  { s with contexts := cs }

/-- One external operation on the pool: an acquisition (with its wall-clock
time and whether platform context creation would succeed) or a release. -/
inductive Op where
  | acquire (canvas : Canvas) (now : Nat) (createOk : Bool)
  | release (canvas : Canvas) (now : Nat)
  deriving DecidableEq, Repr

/-- State after one operation (the returned context, if any, is dropped). -/
def applyOp (s : ManagerState) : Op → ManagerState
  | .acquire canvas now createOk =>
    (WebGLContextManager.getContext s canvas now createOk).1
  | .release canvas now => WebGLContextManager.releaseContext s canvas now

/-- State after a sequence of operations. -/
def run (s : ManagerState) (ops : List Op) : ManagerState :=
  ops.foldl applyOp s

/-- Sequentially acquire a list of targets (each with its wall-clock time,
platform creation assumed to succeed), collecting the returned contexts. -/
def acquireSeq (s : ManagerState) :
    List (Canvas × Nat) → ManagerState × List (Option Nat)
  | [] => (s, [])
  | (canvas, now) :: rest =>
    let r1 := WebGLContextManager.getContext s canvas now true
    let r2 := acquireSeq r1.1 rest
    (r2.1, r1.2 :: r2.2)

/-- Some entry of `l` carries the context handle `g` and is marked in use. -/
def glInUse (l : List ContextEntry) (g : Nat) : Prop :=
  ∃ e ∈ l, e.gl = g ∧ e.isInUse = true

/-- Reachability invariant of the manager: bindings have pairwise-distinct
target keys and pairwise-distinct context-handle values, every bound handle
belongs to an in-use entry, entries carry pairwise-distinct handles, and
every handle is below the fresh-handle counter. -/
structure Inv (s : ManagerState) : Prop where
  keysND : (s.contextMap.map Prod.fst).Nodup
  valsND : (s.contextMap.map Prod.snd).Nodup
  bound : ∀ p ∈ s.contextMap, glInUse s.contexts p.2
  glsND : (s.contexts.map (fun e => e.gl)).Nodup
  fresh : ∀ e ∈ s.contexts, e.gl < s.nextId

/-! Concrete pool states used to instantiate several theorems below. -/

/-- Pool state for claim C1: the pool filled to its capacity of 14 by
acquiring targets 0..13 at times 0..13, then target 1 released at time 100
and target 0 released at time 101, leaving two free entries whose context
handles are 0 (lastUsed 101) and 1 (lastUsed 100). -/
def c1State : ManagerState :=
  run (initState 14)
    (((List.range 14).map (fun i => Op.acquire ⟨i, 4, 4⟩ i true)) ++
      [Op.release ⟨1, 4, 4⟩ 100, Op.release ⟨0, 4, 4⟩ 101])

/-- Pool state with a single entry (context handle 0), in use and bound to
the target canvas with identity 0. -/
def poolWithOne : ManagerState :=
  (WebGLContextManager.getContext (initState 14) ⟨0, 6, 6⟩ 0 true).1

open WebGLContextManager

/-! Helper lemmas about the embedding. -/

theorem updateFirst_length {α : Type} (l : List α) (p : α → Bool) (f : α → α) :
    (updateFirst l p f).length = l.length := by
  induction l with
  | nil => rfl
  | cons x xs ih => cases h : p x <;> simp [updateFirst, h, ih]

theorem updateFirst_map {α β : Type} (l : List α) (p : α → Bool) (f : α → α)
    (g : α → β) (hg : ∀ x, g (f x) = g x) :
    (updateFirst l p f).map g = l.map g := by
  induction l with
  | nil => rfl
  | cons x xs ih => cases h : p x <;> simp [updateFirst, h, ih, hg]

theorem updateFirst_of_neg {α : Type} (l : List α) (p : α → Bool) (f : α → α)
    (h : ∀ x ∈ l, p x = false) : updateFirst l p f = l := by
  induction l with
  | nil => rfl
  | cons x xs ih =>
    have hx := h x (List.mem_cons_self x xs)
    simp [updateFirst, hx]
    exact ih fun y hy => h y (List.mem_cons_of_mem x hy)

theorem find?_updateFirst {α : Type} (l : List α) (p : α → Bool) (f : α → α)
    (a : α) (hp : ∀ x, p x = true → p (f x) = true) (h : l.find? p = some a) :
    (updateFirst l p f).find? p = some (f a) := by
  induction l with
  | nil => simp at h
  | cons x xs ih =>
    cases hx : p x with
    | true =>
      rw [List.find?_cons_of_pos _ hx] at h
      cases h
      simp [updateFirst, hx, List.find?_cons_of_pos _ (hp _ hx)]
    | false =>
      have hnx : ¬ p x = true := by simp [hx]
      rw [List.find?_cons_of_neg _ hnx] at h
      simp [updateFirst, hx, List.find?_cons_of_neg _ hnx, ih h]

theorem findOldestUnusedContext_of_no_free (s : ManagerState)
    (h : s.contexts.find? (fun e => !e.isInUse) = none) :
    findOldestUnusedContext s = none := by
  unfold findOldestUnusedContext
  have hfil : s.contexts.filter (fun e => !e.isInUse) = [] := by
    rw [List.filter_eq_nil_iff]
    intro a ha
    exact List.find?_eq_none.mp h a ha
  rw [hfil]

theorem evictionStep_of_no_free (s : ManagerState) (c : Canvas) (now : Nat)
    (h : s.contexts.find? (fun e => !e.isInUse) = none) :
    evictionStep s c now = (s, none) := by
  unfold evictionStep
  rw [findOldestUnusedContext_of_no_free s h]

theorem getContext_hit (s : ManagerState) (c : Canvas) (now : Nat) (ok : Bool)
    (g : Nat) (h : mapGet s.contextMap c.id = some g) :
    getContext s c now ok = (markContextAsUsed s g now, some g) := by
  simp only [getContext, h]

theorem getContext_freeEntry (s : ManagerState) (c : Canvas) (now : Nat)
    (ok : Bool) (fe : ContextEntry)
    (h1 : mapGet s.contextMap c.id = none)
    (h2 : s.contexts.find? (fun e => !e.isInUse) = some fe) :
    getContext s c now ok = (assignContextToCanvas s fe.gl c now, some fe.gl) := by
  simp only [getContext, h1, h2]

theorem getContext_createOk (s : ManagerState) (c : Canvas) (now : Nat)
    (h1 : mapGet s.contextMap c.id = none)
    (h2 : s.contexts.find? (fun e => !e.isInUse) = none)
    (h3 : s.contexts.length < s.maxContexts) :
    getContext s c now true =
      (assignContextToCanvas
        { s with contexts := s.contexts ++ [freshEntry s.nextId now],
                 nextId := s.nextId + 1 }
        s.nextId c now, some s.nextId) := by
  simp only [getContext, h1, h2, if_pos h3, createNewContext]
  simp [freshEntry]

theorem getContext_createFail (s : ManagerState) (c : Canvas) (now : Nat)
    (h1 : mapGet s.contextMap c.id = none)
    (h2 : s.contexts.find? (fun e => !e.isInUse) = none)
    (h3 : s.contexts.length < s.maxContexts) :
    getContext s c now false = evictionStep s c now := by
  simp only [getContext, h1, h2, if_pos h3, createNewContext]
  simp [freshEntry]

theorem getContext_atCapacity (s : ManagerState) (c : Canvas) (now : Nat)
    (ok : Bool)
    (h1 : mapGet s.contextMap c.id = none)
    (h2 : s.contexts.find? (fun e => !e.isInUse) = none)
    (h3 : ¬ s.contexts.length < s.maxContexts) :
    getContext s c now ok = evictionStep s c now := by
  simp only [getContext, h1, h2, if_neg h3]

theorem not_mem_of_mapGet_none (m : List (Nat × Nat)) (k : Nat)
    (h : mapGet m k = none) : ∀ p ∈ m, (p.1 == k) = false := by
  intro p hp
  unfold mapGet at h
  cases hf : m.find? (fun p => p.1 == k) with
  | some q => rw [hf] at h; simp at h
  | none => exact Bool.eq_false_iff.mpr (List.find?_eq_none.mp hf p hp)

theorem mapSet_of_none (m : List (Nat × Nat)) (k v : Nat)
    (h : mapGet m k = none) : mapSet m k v = m ++ [(k, v)] := by
  unfold mapSet
  rw [if_neg]
  intro hany
  rw [List.any_eq_true] at hany
  obtain ⟨p, hp, hpk⟩ := hany
  rw [not_mem_of_mapGet_none m k h p hp] at hpk
  exact Bool.false_ne_true hpk

theorem mapGet_append_single_self (m : List (Nat × Nat)) (k v : Nat)
    (h : mapGet m k = none) : mapGet (m ++ [(k, v)]) k = some v := by
  unfold mapGet at h ⊢
  rw [List.find?_append]
  cases hf : m.find? (fun p => p.1 == k) with
  | some q => rw [hf] at h; simp at h
  | none => simp [List.find?]

theorem mapGet_mapSet_self (m : List (Nat × Nat)) (k v : Nat)
    (h : mapGet m k = none) : mapGet (mapSet m k v) k = some v := by
  rw [mapSet_of_none m k v h]
  exact mapGet_append_single_self m k v h

theorem mapGet_append_single_ne (m : List (Nat × Nat)) (k v k2 : Nat)
    (hne : k2 ≠ k) : mapGet (m ++ [(k, v)]) k2 = mapGet m k2 := by
  unfold mapGet
  rw [List.find?_append]
  cases hf : m.find? (fun p => p.1 == k2) with
  | some q => simp
  | none =>
    have : List.find? (fun p => p.1 == k2) [(k, v)] = none := by
      simp [List.find?_eq_none]
      exact fun hk => absurd hk.symm hne
    simp [this]

theorem mapGet_mapDelete_self (m : List (Nat × Nat)) (k : Nat) :
    mapGet (mapDelete m k) k = none := by
  unfold mapGet mapDelete
  have : (m.filter (fun p => !(p.1 == k))).find? (fun p => p.1 == k) = none := by
    rw [List.find?_eq_none]
    intro p hp
    have h2 := (List.mem_filter.mp hp).2
    simp at h2
    simp [h2]
  rw [this]
  rfl

theorem length_filter_add_length_filter_not {α : Type} (l : List α)
    (p : α → Bool) :
    (l.filter p).length + (l.filter (fun x => !p x)).length = l.length := by
  induction l with
  | nil => rfl
  | cons x xs ih =>
    cases h : p x <;> simp [h] <;> omega

/-- C5: with capacity 2 the spec scenario plays out exactly: acquire(A)
returns context 0 (stats 1/1/0), acquire(B) returns the distinct context 1
(stats 2/2/0), acquire(C) fails, release(A) leaves stats 2/1/1, acquire(C)
succeeds reusing context 0 now bound to C, and the final acquire(A) is a
cache miss (A has no binding) that fails with both entries in use. -/
theorem capacity_two_scenario :
    let a : Canvas := ⟨0, 10, 10⟩
    let b : Canvas := ⟨1, 10, 10⟩
    let c : Canvas := ⟨2, 10, 10⟩
    let r1 := getContext (initState 2) a 1 true
    let r2 := getContext r1.1 b 2 true
    let r3 := getContext r2.1 c 3 true
    let s4 := releaseContext r3.1 a 4
    let r5 := getContext s4 c 5 true
    let r6 := getContext r5.1 a 6 true
    r1.2 = some 0 ∧ getStats r1.1 = ⟨1, 1, 0⟩ ∧
    r2.2 = some 1 ∧ getStats r2.1 = ⟨2, 2, 0⟩ ∧
    r3.2 = none ∧ getStats r3.1 = ⟨2, 2, 0⟩ ∧
    getStats s4 = ⟨2, 1, 1⟩ ∧
    r5.2 = some 0 ∧ mapGet r5.1.contextMap 2 = some 0 ∧
    getStats r5.1 = ⟨2, 2, 0⟩ ∧
    mapGet r5.1.contextMap 0 = none ∧
    r6.2 = none ∧ getStats r6.1 = ⟨2, 2, 0⟩ := by
  decide

/-- C1 counterexample: in `c1State` the pool is at capacity 14 with two free
entries, handle 0 (lastUsed 101) and handle 1 (lastUsed 100); acquiring the
unbound target 20 selects handle 0, not the free entry with the smallest
lastUsed timestamp (handle 1). -/
theorem lru_selection_cex :
    c1State.contexts.length = 14 ∧ c1State.maxContexts = 14 ∧
    (c1State.contexts.filter (fun e => !e.isInUse)).map
      (fun e => (e.gl, e.lastUsed)) = [(0, 101), (1, 100)] ∧
    mapGet c1State.contextMap 20 = none ∧
    (getContext c1State ⟨20, 3, 3⟩ 200 true).2 = some 0 := by
  decide

/-- C1 amended: when the pool is at capacity and at least one entry is free,
acquiring a target with no existing binding selects for reassignment the
first free entry in pool insertion order (regardless of lastUsedAt), binds
the target to that entry's context, and leaves the pool size unchanged. -/
theorem acquire_selects_first_free (s : ManagerState) (c : Canvas) (now : Nat)
    (ok : Bool) (fe : ContextEntry)
    (h1 : mapGet s.contextMap c.id = none)
    (hcap : s.contexts.length = s.maxContexts)
    (h2 : s.contexts.find? (fun e => !e.isInUse) = some fe) :
    (getContext s c now ok).2 = some fe.gl ∧
    mapGet (getContext s c now ok).1.contextMap c.id = some fe.gl ∧
    (getStats (getContext s c now ok).1).total = (getStats s).total := by
  rw [getContext_freeEntry s c now ok fe h1 h2]
  refine ⟨rfl, ?_, ?_⟩
  · simp only [assignContextToCanvas]
    exact mapGet_mapSet_self _ _ _ h1
  · simp only [assignContextToCanvas, getStats]
    exact updateFirst_length _ _ _

/-- Witness for the amended C1 theorem at the concrete state `c1State`. -/
theorem acquire_selects_first_free_witness :
    (getContext c1State ⟨20, 3, 3⟩ 200 true).2 = some 0 ∧
    mapGet (getContext c1State ⟨20, 3, 3⟩ 200 true).1.contextMap 20 = some 0 ∧
    (getStats (getContext c1State ⟨20, 3, 3⟩ 200 true).1).total =
      (getStats c1State).total := by
  exact acquire_selects_first_free c1State ⟨20, 3, 3⟩ 200 true
    ⟨0, 4, 4, false, 101, GLState.fresh⟩ (by decide) (by decide) (by decide)

/-- C2 failing input: acquire target 0 (context 0), run a MediaEffect render
pass on it (binding program 7, array buffer 8, texture 9), release target 0,
then acquire the different target 1.  The pool hands context 0 to target 1
with the program, array buffer and texture still bound: GPU state is not
reset on reassignment (cleanupContext is unreachable from getContext). -/
theorem reassignment_keeps_bindings :
    let a : Canvas := ⟨0, 10, 10⟩
    let b : Canvas := ⟨1, 10, 10⟩
    let s1 := (getContext (initState 14) a 0 true).1
    let s2 := MediaEffect.renderPass s1 0 7 8 9
    let s3 := releaseContext s2 a 1
    let r := getContext s3 b 2 true
    r.2 = some 0 ∧ mapGet r.1.contextMap 1 = some 0 ∧
    r.1.contexts.map (fun e =>
      (e.gl, e.glState.program, e.glState.arrayBuffer, e.glState.texture2D)) =
      [(0, some 7, some 8, some 9)] := by
  decide

/-- C9: an operation referencing a context handle owned by no pool entry is
a silent no-op: updateContextSize leaves the state unchanged and
renderToCanvas draws nothing onto the visible target. -/
theorem unknown_context_noop (s : ManagerState) (gl width height : Nat)
    (ok : Bool)
    (h : s.contexts.find? (fun e => e.gl == gl) = none) :
    updateContextSize s gl width height = s ∧ renderToCanvas s gl ok = none := by
  constructor
  · simp only [updateContextSize]
    rw [updateFirst_of_neg]
    · intro x hx
      exact Bool.eq_false_iff.mpr (List.find?_eq_none.mp h x hx)
  · unfold renderToCanvas
    cases ok <;> simp [h]

/-- Witness for the C9 theorem: handle 77 is tracked by no entry of
`poolWithOne`. -/
theorem unknown_context_noop_witness :
    updateContextSize poolWithOne 77 3 4 = poolWithOne ∧
    renderToCanvas poolWithOne 77 true = none := by
  exact unknown_context_noop poolWithOne 77 3 4 true (by decide)

/-- C10: the eviction-reassignment step of getContext is dead code.  When no
entry is free — which is exactly the situation in which getContext reaches
its eviction step, since the earlier free-entry lookup already returned
none — findOldestUnusedContext returns none, the eviction step returns the
state unchanged with a null context (so cleanupContext is never invoked from
getContext), and a cache-miss getContext that cannot create a new entry
returns null without repurposing anything. -/
theorem eviction_path_dead (s : ManagerState) (c : Canvas) (now : Nat)
    (ok : Bool)
    (hf : s.contexts.find? (fun e => !e.isInUse) = none) :
    findOldestUnusedContext s = none ∧
    evictionStep s c now = (s, none) ∧
    (mapGet s.contextMap c.id = none →
      s.maxContexts ≤ s.contexts.length ∨ ok = false →
      getContext s c now ok = (s, none)) := by
  refine ⟨findOldestUnusedContext_of_no_free s hf,
    evictionStep_of_no_free s c now hf, ?_⟩
  intro h1 h3
  rcases Nat.lt_or_ge s.contexts.length s.maxContexts with hlt | hge
  · rcases h3 with hle | hokf
    · omega
    · subst hokf
      rw [getContext_createFail s c now h1 hf hlt]
      exact evictionStep_of_no_free s c now hf
  · rw [getContext_atCapacity s c now ok h1 hf (by omega)]
    exact evictionStep_of_no_free s c now hf

/-- Witness for the C10 theorem: in `poolWithOne` the single entry is in
use, so acquiring the unseen target 9 with platform creation failing
returns null and changes nothing. -/
theorem eviction_path_dead_witness :
    findOldestUnusedContext poolWithOne = none ∧
    evictionStep poolWithOne ⟨9, 2, 2⟩ 5 = (poolWithOne, none) ∧
    getContext poolWithOne ⟨9, 2, 2⟩ 5 false = (poolWithOne, none) := by
  have h := eviction_path_dead poolWithOne ⟨9, 2, 2⟩ 5 false (by decide)
  exact ⟨h.1, h.2.1, h.2.2 (by decide) (Or.inr rfl)⟩

/-- C7: two consecutive acquires of a target that currently has a binding
return the identical context both times, leave the pool size unchanged, and
each cache hit refreshes the bound entry's lastUsed timestamp to the time of
that acquire. -/
theorem cache_hit_returns_same (s : ManagerState) (c : Canvas) (g t1 t2 : Nat)
    (ok1 ok2 : Bool)
    (hm : mapGet s.contextMap c.id = some g)
    (he : ∃ e ∈ s.contexts, e.gl = g) :
    (getContext s c t1 ok1).2 = some g ∧
    (getContext (getContext s c t1 ok1).1 c t2 ok2).2 = some g ∧
    (getStats (getContext s c t1 ok1).1).total = (getStats s).total ∧
    (getStats (getContext (getContext s c t1 ok1).1 c t2 ok2).1).total =
      (getStats s).total ∧
    (∃ e1, (getContext s c t1 ok1).1.contexts.find? (fun e => e.gl == g) =
      some e1 ∧ e1.lastUsed = t1) ∧
    (∃ e2, (getContext (getContext s c t1 ok1).1 c t2 ok2).1.contexts.find?
      (fun e => e.gl == g) = some e2 ∧ e2.lastUsed = t2) := by
  have hfind : ∃ a, s.contexts.find? (fun e => e.gl == g) = some a := by
    have hs : (s.contexts.find? (fun e => e.gl == g)).isSome := by
      rw [List.find?_isSome]
      obtain ⟨e, hmem, hgl⟩ := he
      exact ⟨e, hmem, by simp [hgl]⟩
    exact Option.isSome_iff_exists.mp hs
  obtain ⟨a, ha⟩ := hfind
  rw [getContext_hit s c t1 ok1 g hm]
  have hm2 : mapGet (markContextAsUsed s g t1).contextMap c.id = some g := hm
  rw [getContext_hit (markContextAsUsed s g t1) c t2 ok2 g hm2]
  have ha1 : (markContextAsUsed s g t1).contexts.find? (fun e => e.gl == g) =
      some { a with lastUsed := t1 } :=
    find?_updateFirst s.contexts (fun e => e.gl == g)
      (fun e => { e with lastUsed := t1 }) a (fun x hx => hx) ha
  have ha2 : (markContextAsUsed (markContextAsUsed s g t1) g t2).contexts.find?
      (fun e => e.gl == g) = some { a with lastUsed := t2 } :=
    find?_updateFirst (markContextAsUsed s g t1).contexts (fun e => e.gl == g)
      (fun e => { e with lastUsed := t2 }) { a with lastUsed := t1 }
      (fun x hx => hx) ha1
  refine ⟨rfl, rfl, ?_, ?_, ⟨_, ha1, rfl⟩, ⟨_, ha2, rfl⟩⟩
  · simp only [markContextAsUsed, getStats]
    exact updateFirst_length _ _ _
  · simp only [markContextAsUsed, getStats]
    rw [updateFirst_length, updateFirst_length]

/-- Witness for the C7 theorem: target 0 is bound to context 0 in
`poolWithOne`; acquiring it twice more returns context 0 both times. -/
theorem cache_hit_returns_same_witness :
    (getContext poolWithOne ⟨0, 6, 6⟩ 10 true).2 = some 0 ∧
    (getContext (getContext poolWithOne ⟨0, 6, 6⟩ 10 true).1
      ⟨0, 6, 6⟩ 11 true).2 = some 0 ∧
    (getStats (getContext poolWithOne ⟨0, 6, 6⟩ 10 true).1).total =
      (getStats poolWithOne).total ∧
    (getStats (getContext (getContext poolWithOne ⟨0, 6, 6⟩ 10 true).1
      ⟨0, 6, 6⟩ 11 true).1).total = (getStats poolWithOne).total ∧
    (∃ e1, (getContext poolWithOne ⟨0, 6, 6⟩ 10 true).1.contexts.find?
      (fun e => e.gl == 0) = some e1 ∧ e1.lastUsed = 10) ∧
    (∃ e2, (getContext (getContext poolWithOne ⟨0, 6, 6⟩ 10 true).1
      ⟨0, 6, 6⟩ 11 true).1.contexts.find? (fun e => e.gl == 0) = some e2 ∧
      e2.lastUsed = 11) := by
  exact cache_hit_returns_same poolWithOne ⟨0, 6, 6⟩ 0 10 11 true true
    (by decide) (by decide)

/-- C8: releasing a target with no binding changes nothing; releasing a
bound target marks its entry free, stamps lastUsed with the release time,
clears the entry's color buffer to transparent, removes the binding, and
leaves the pool size unchanged. -/
theorem release_semantics (s : ManagerState) (c : Canvas) (t : Nat) :
    (mapGet s.contextMap c.id = none → releaseContext s c t = s) ∧
    (∀ g, mapGet s.contextMap c.id = some g → (∃ e ∈ s.contexts, e.gl = g) →
      mapGet (releaseContext s c t).contextMap c.id = none ∧
      (∃ e1, (releaseContext s c t).contexts.find? (fun e => e.gl == g) =
        some e1 ∧ e1.isInUse = false ∧ e1.lastUsed = t ∧
        e1.glState.colorTransparent = true) ∧
      (getStats (releaseContext s c t)).total = (getStats s).total) := by
  constructor
  · intro h
    unfold releaseContext
    rw [h]
  · intro g hm he
    have hfind : ∃ a, s.contexts.find? (fun e => e.gl == g) = some a := by
      have hs : (s.contexts.find? (fun e => e.gl == g)).isSome := by
        rw [List.find?_isSome]
        obtain ⟨e, hmem, hgl⟩ := he
        exact ⟨e, hmem, by simp [hgl]⟩
      exact Option.isSome_iff_exists.mp hs
    obtain ⟨a, ha⟩ := hfind
    simp only [releaseContext, hm]
    refine ⟨mapGet_mapDelete_self _ _, ?_, ?_⟩
    · exact ⟨_, find?_updateFirst _ _ _ a (fun x hx => hx) ha, rfl, rfl, rfl⟩
    · simp only [getStats]
      exact updateFirst_length _ _ _

/-- Witness for the C8 theorem: releasing the unbound target 9 changes
nothing; releasing the bound target 0 frees entry 0 at time 5. -/
theorem release_semantics_witness :
    releaseContext poolWithOne ⟨9, 9, 9⟩ 5 = poolWithOne ∧
    (mapGet (releaseContext poolWithOne ⟨0, 6, 6⟩ 5).contextMap 0 = none ∧
      (∃ e1, (releaseContext poolWithOne ⟨0, 6, 6⟩ 5).contexts.find?
        (fun e => e.gl == 0) = some e1 ∧ e1.isInUse = false ∧
        e1.lastUsed = 5 ∧ e1.glState.colorTransparent = true) ∧
      (getStats (releaseContext poolWithOne ⟨0, 6, 6⟩ 5)).total =
        (getStats poolWithOne).total) := by
  exact ⟨(release_semantics poolWithOne ⟨9, 9, 9⟩ 5).1 (by decide),
    (release_semantics poolWithOne ⟨0, 6, 6⟩ 5).2 0 (by decide) (by decide)⟩

/-! Case analysis of the two public operations, used for the reachability
invariants below. -/

theorem getContext_cases (s : ManagerState) (c : Canvas) (now : Nat)
    (ok : Bool) :
    (∃ g, mapGet s.contextMap c.id = some g ∧
      getContext s c now ok = (markContextAsUsed s g now, some g)) ∨
    (∃ fe, mapGet s.contextMap c.id = none ∧
      s.contexts.find? (fun e => !e.isInUse) = some fe ∧
      getContext s c now ok = (assignContextToCanvas s fe.gl c now, some fe.gl)) ∨
    (mapGet s.contextMap c.id = none ∧
      s.contexts.find? (fun e => !e.isInUse) = none ∧
      s.contexts.length < s.maxContexts ∧ ok = true ∧
      getContext s c now ok =
        (assignContextToCanvas { s with contexts := s.contexts ++ [freshEntry s.nextId now], nextId := s.nextId + 1 } s.nextId c now, some s.nextId)) ∨
    (getContext s c now ok = (s, none)) := by
  cases hm : mapGet s.contextMap c.id with
  | some g => exact Or.inl ⟨g, rfl, getContext_hit s c now ok g hm⟩
  | none =>
    cases hf : s.contexts.find? (fun e => !e.isInUse) with
    | some fe =>
      exact Or.inr (Or.inl ⟨fe, rfl, rfl, getContext_freeEntry s c now ok fe hm hf⟩)
    | none =>
      by_cases hlt : s.contexts.length < s.maxContexts
      · cases ok with
        | true =>
          exact Or.inr (Or.inr (Or.inl
            ⟨rfl, rfl, hlt, rfl, getContext_createOk s c now hm hf hlt⟩))
        | false =>
          refine Or.inr (Or.inr (Or.inr ?_))
          rw [getContext_createFail s c now hm hf hlt]
          exact evictionStep_of_no_free s c now hf
      · refine Or.inr (Or.inr (Or.inr ?_))
        rw [getContext_atCapacity s c now ok hm hf hlt]
        exact evictionStep_of_no_free s c now hf

theorem releaseContext_cases (s : ManagerState) (c : Canvas) (t : Nat) :
    releaseContext s c t = s ∨
    (∃ g, mapGet s.contextMap c.id = some g ∧
      releaseContext s c t =
        { s with contexts := updateFirst s.contexts (fun e => e.gl == g) (fun e => { e with isInUse := false, lastUsed := t, glState := { e.glState with colorTransparent := true } }), contextMap := mapDelete s.contextMap c.id }) := by
  cases hm : mapGet s.contextMap c.id with
  | none =>
    left
    unfold releaseContext
    rw [hm]
  | some g =>
    right
    refine ⟨g, rfl, ?_⟩
    simp only [releaseContext, hm]

/-! Structural facts about the state after each operation. -/

theorem applyOp_maxContexts (s : ManagerState) (op : Op) :
    (applyOp s op).maxContexts = s.maxContexts := by
  cases op with
  | acquire c now ok =>
    rcases getContext_cases s c now ok with
      ⟨g, _, h⟩ | ⟨fe, _, _, h⟩ | ⟨_, _, _, _, h⟩ | h <;>
      simp [applyOp, h, markContextAsUsed, assignContextToCanvas]
  | release c t =>
    rcases releaseContext_cases s c t with h | ⟨g, _, h⟩ <;>
      simp [applyOp, h]

theorem applyOp_gl_extends (s : ManagerState) (op : Op) :
    ∃ tail, (applyOp s op).contexts.map (fun e => e.gl) =
      s.contexts.map (fun e => e.gl) ++ tail := by
  cases op with
  | acquire c now ok =>
    rcases getContext_cases s c now ok with
      ⟨g, _, h⟩ | ⟨fe, _, _, h⟩ | ⟨_, _, _, _, h⟩ | h
    · refine ⟨[], ?_⟩
      simp only [applyOp, h, markContextAsUsed]
      rw [updateFirst_map, List.append_nil]
      intro x
      rfl
    · refine ⟨[], ?_⟩
      simp only [applyOp, h, assignContextToCanvas]
      rw [updateFirst_map, List.append_nil]
      intro x
      rfl
    · refine ⟨[s.nextId], ?_⟩
      simp only [applyOp, h, assignContextToCanvas]
      rw [updateFirst_map]
      · simp [freshEntry]
      · intro x
        rfl
    · exact ⟨[], by simp [applyOp, h]⟩
  | release c t =>
    rcases releaseContext_cases s c t with h | ⟨g, _, h⟩
    · exact ⟨[], by simp [applyOp, h]⟩
    · refine ⟨[], ?_⟩
      simp only [applyOp, h]
      rw [updateFirst_map, List.append_nil]
      intro x
      rfl

theorem applyOp_length_le (s : ManagerState) (op : Op)
    (h : s.contexts.length ≤ s.maxContexts) :
    (applyOp s op).contexts.length ≤ (applyOp s op).maxContexts := by
  cases op with
  | acquire c now ok =>
    rcases getContext_cases s c now ok with
      ⟨g, _, hg⟩ | ⟨fe, _, _, hg⟩ | ⟨_, _, hlt, _, hg⟩ | hg
    · simpa [applyOp, hg, markContextAsUsed, updateFirst_length] using h
    · simpa [applyOp, hg, assignContextToCanvas, updateFirst_length] using h
    · simp [applyOp, hg, assignContextToCanvas, updateFirst_length]
      omega
    · simpa [applyOp, hg] using h
  | release c t =>
    rcases releaseContext_cases s c t with hg | ⟨g, _, hg⟩
    · simpa [applyOp, hg] using h
    · simpa [applyOp, hg, updateFirst_length] using h

theorem run_cons (s : ManagerState) (op : Op) (ops : List Op) :
    run s (op :: ops) = run (applyOp s op) ops := rfl

theorem run_length_le (ops : List Op) (s : ManagerState)
    (h : s.contexts.length ≤ s.maxContexts) :
    (run s ops).contexts.length ≤ (run s ops).maxContexts := by
  induction ops generalizing s with
  | nil => exact h
  | cons op rest ih => exact ih (applyOp s op) (applyOp_length_le s op h)

theorem run_maxContexts (ops : List Op) (s : ManagerState) :
    (run s ops).maxContexts = s.maxContexts := by
  induction ops generalizing s with
  | nil => rfl
  | cons op rest ih => rw [run_cons, ih, applyOp_maxContexts]

/-- C3: after any sequence of acquire and release operations on a fresh pool
(capacity 14), the stats snapshot satisfies inUse + free = total and
total ≤ 14, and no operation removes pool entries: the sequence of context
handles before any further operation is an initial segment of the sequence
after it. -/
theorem stats_invariant (ops : List Op) :
    (getStats (run (initState 14) ops)).inUse +
      (getStats (run (initState 14) ops)).free =
      (getStats (run (initState 14) ops)).total ∧
    (getStats (run (initState 14) ops)).total ≤ 14 ∧
    ∀ op : Op, ∃ tail,
      (applyOp (run (initState 14) ops) op).contexts.map (fun e => e.gl) =
        (run (initState 14) ops).contexts.map (fun e => e.gl) ++ tail := by
  refine ⟨length_filter_add_length_filter_not _ _, ?_, fun op => applyOp_gl_extends _ op⟩
  have h := run_length_le ops (initState 14) (by simp [initState])
  rwa [run_maxContexts ops (initState 14)] at h

/-! Lemmas about glInUse, towards the binding invariant (C4). -/

theorem glInUse_cons (a : ContextEntry) (l : List ContextEntry) (g : Nat) :
    glInUse (a :: l) g ↔ (a.gl = g ∧ a.isInUse = true) ∨ glInUse l g := by
  unfold glInUse
  constructor
  · rintro ⟨e, he, hgl, hus⟩
    rcases List.mem_cons.mp he with rfl | hmem
    · exact Or.inl ⟨hgl, hus⟩
    · exact Or.inr ⟨e, hmem, hgl, hus⟩
  · rintro (⟨hgl, hus⟩ | ⟨e, hmem, hgl, hus⟩)
    · exact ⟨a, List.mem_cons_self a l, hgl, hus⟩
    · exact ⟨e, List.mem_cons_of_mem a hmem, hgl, hus⟩

theorem glInUse_append (l1 l2 : List ContextEntry) (g : Nat) :
    glInUse (l1 ++ l2) g ↔ glInUse l1 g ∨ glInUse l2 g := by
  unfold glInUse
  constructor
  · rintro ⟨e, he, h⟩
    rcases List.mem_append.mp he with h1 | h2
    · exact Or.inl ⟨e, h1, h⟩
    · exact Or.inr ⟨e, h2, h⟩
  · rintro (⟨e, he, h⟩ | ⟨e, he, h⟩)
    · exact ⟨e, List.mem_append_left _ he, h⟩
    · exact ⟨e, List.mem_append_right _ he, h⟩

theorem glInUse_updateFirst_iff (l : List ContextEntry)
    (p : ContextEntry → Bool) (f : ContextEntry → ContextEntry) (g : Nat)
    (hgl : ∀ x, (f x).gl = x.gl) (hus : ∀ x, (f x).isInUse = x.isInUse) :
    glInUse (updateFirst l p f) g ↔ glInUse l g := by
  induction l with
  | nil => exact Iff.rfl
  | cons x xs ih =>
    cases hx : p x with
    | true =>
      have hup : updateFirst (x :: xs) p f = f x :: xs := by
        simp [updateFirst, hx]
      rw [hup, glInUse_cons, glInUse_cons, hgl, hus]
    | false =>
      have hup : updateFirst (x :: xs) p f = x :: updateFirst xs p f := by
        simp [updateFirst, hx]
      rw [hup, glInUse_cons, glInUse_cons, ih]

theorem glInUse_updateFirst_ne (l : List ContextEntry) (t0 g : Nat)
    (f : ContextEntry → ContextEntry)
    (hgl : ∀ x, (f x).gl = x.gl) (hne : g ≠ t0) :
    glInUse (updateFirst l (fun e => e.gl == t0) f) g ↔ glInUse l g := by
  induction l with
  | nil => exact Iff.rfl
  | cons x xs ih =>
    cases hx : (x.gl == t0) with
    | true =>
      have hxg : x.gl = t0 := by simpa using hx
      have hup : updateFirst (x :: xs) (fun e => e.gl == t0) f = f x :: xs := by
        simp [updateFirst, hx]
      rw [hup, glInUse_cons, glInUse_cons, hgl]
      constructor
      · rintro (⟨h1, _⟩ | h)
        · exact absurd (h1.symm.trans hxg) hne
        · exact Or.inr h
      · rintro (⟨h1, _⟩ | h)
        · exact absurd (h1.symm.trans hxg) hne
        · exact Or.inr h
    | false =>
      have hup : updateFirst (x :: xs) (fun e => e.gl == t0) f =
          x :: updateFirst xs (fun e => e.gl == t0) f := by
        simp [updateFirst, hx]
      rw [hup, glInUse_cons, glInUse_cons, ih]

theorem glInUse_updateFirst_self (l : List ContextEntry) (t0 : Nat)
    (f : ContextEntry → ContextEntry)
    (hgl : ∀ x, (f x).gl = x.gl) (hus : ∀ x, (f x).isInUse = true)
    (hex : ∃ x ∈ l, x.gl = t0) :
    glInUse (updateFirst l (fun e => e.gl == t0) f) t0 := by
  induction l with
  | nil => simp at hex
  | cons x xs ih =>
    cases hx : (x.gl == t0) with
    | true =>
      have hup : updateFirst (x :: xs) (fun e => e.gl == t0) f = f x :: xs := by
        simp [updateFirst, hx]
      rw [hup, glInUse_cons]
      exact Or.inl ⟨(hgl x).trans (by simpa using hx), hus x⟩
    | false =>
      have hup : updateFirst (x :: xs) (fun e => e.gl == t0) f =
          x :: updateFirst xs (fun e => e.gl == t0) f := by
        simp [updateFirst, hx]
      rw [hup, glInUse_cons]
      refine Or.inr (ih ?_)
      obtain ⟨y, hy, hyg⟩ := hex
      rcases List.mem_cons.mp hy with rfl | hmem
      · rw [hyg] at hx
        simp at hx
      · exact ⟨y, hmem, hyg⟩

theorem mem_map_gl_of_mem_updateFirst (l : List ContextEntry)
    (p : ContextEntry → Bool) (f : ContextEntry → ContextEntry)
    (hgl : ∀ x, (f x).gl = x.gl) (a : ContextEntry)
    (h : a ∈ updateFirst l p f) : a.gl ∈ l.map (fun e => e.gl) := by
  have h2 := List.mem_map_of_mem (fun e => e.gl) h
  rwa [updateFirst_map l p f _ hgl] at h2

theorem glsND_updateFirst (l : List ContextEntry) (p : ContextEntry → Bool)
    (f : ContextEntry → ContextEntry) (hgl : ∀ x, (f x).gl = x.gl)
    (h : (l.map (fun e => e.gl)).Nodup) :
    ((updateFirst l p f).map (fun e => e.gl)).Nodup := by
  rw [updateFirst_map l p f _ hgl]
  exact h

theorem fresh_updateFirst (l : List ContextEntry) (p : ContextEntry → Bool)
    (f : ContextEntry → ContextEntry) (n : Nat)
    (hgl : ∀ x, (f x).gl = x.gl) (h : ∀ e ∈ l, e.gl < n) :
    ∀ e ∈ updateFirst l p f, e.gl < n := by
  intro a ha
  obtain ⟨e, hmem, heq⟩ :=
    List.mem_map.mp (mem_map_gl_of_mem_updateFirst l p f hgl a ha)
  exact heq ▸ h e hmem

theorem mapGet_some_mem (m : List (Nat × Nat)) (k g : Nat)
    (h : mapGet m k = some g) : ∃ q ∈ m, q.1 = k ∧ q.2 = g := by
  unfold mapGet at h
  cases hf : m.find? (fun p => p.1 == k) with
  | none => rw [hf] at h; simp at h
  | some q =>
    rw [hf] at h
    simp at h
    refine ⟨q, List.mem_of_find?_eq_some hf, ?_, h⟩
    have := List.find?_some hf
    simpa using this

/-! Preservation of the binding invariant. -/

theorem inv_applyOp (s : ManagerState) (op : Op) (hs : Inv s) :
    Inv (applyOp s op) := by
  cases op with
  | acquire c now ok =>
    rcases getContext_cases s c now ok with
      ⟨g, hm, h⟩ | ⟨fe, hm, hf, h⟩ | ⟨hm, hf, hlt, hok, h⟩ | h
    · simp only [applyOp, h]
      exact
        { keysND := hs.keysND
          valsND := hs.valsND
          bound := fun p hp =>
            (glInUse_updateFirst_iff _ _ _ _ (by intro x; rfl) (by intro x; rfl)).mpr
              (hs.bound p hp)
          glsND := glsND_updateFirst _ _ _ (by intro x; rfl) hs.glsND
          fresh := fresh_updateFirst _ _ _ _ (by intro x; rfl) hs.fresh }
    · simp only [applyOp, h]
      have hfe_mem : fe ∈ s.contexts := List.mem_of_find?_eq_some hf
      have hfe_free : fe.isInUse = false := by
        have := List.find?_some hf
        simpa using this
      have hmap : mapSet s.contextMap c.id fe.gl =
          s.contextMap ++ [(c.id, fe.gl)] := mapSet_of_none _ _ _ hm
      have hnotval : ∀ p ∈ s.contextMap, p.2 ≠ fe.gl := by
        intro p hp hpeq
        obtain ⟨e, hemem, hegl, heus⟩ := hs.bound p hp
        have heq : e = fe :=
          List.inj_on_of_nodup_map hs.glsND hemem hfe_mem (by rw [hegl, hpeq])
        rw [heq, hfe_free] at heus
        exact Bool.false_ne_true heus
      refine { keysND := ?_, valsND := ?_, bound := ?_, glsND := ?_, fresh := ?_ }
      · show ((mapSet s.contextMap c.id fe.gl).map Prod.fst).Nodup
        rw [hmap, List.map_append]
        refine List.Nodup.append hs.keysND (List.nodup_singleton _) ?_
        intro a ha hb
        simp at hb
        subst hb
        obtain ⟨p, hp, hpk⟩ := List.mem_map.mp ha
        have := not_mem_of_mapGet_none _ _ hm p hp
        rw [hpk] at this
        simp at this
      · show ((mapSet s.contextMap c.id fe.gl).map Prod.snd).Nodup
        rw [hmap, List.map_append]
        refine List.Nodup.append hs.valsND (List.nodup_singleton _) ?_
        intro a ha hb
        simp at hb
        subst hb
        obtain ⟨p, hp, hpk⟩ := List.mem_map.mp ha
        exact hnotval p hp hpk
      · intro p hp
        have hp2 : p ∈ s.contextMap ++ [(c.id, fe.gl)] := by
          rw [← hmap]
          exact hp
        rcases List.mem_append.mp hp2 with hpm | hps
        · exact (glInUse_updateFirst_ne _ _ _ _ (by intro x; rfl)
            (hnotval p hpm)).mpr (hs.bound p hpm)
        · have hpeq : p = (c.id, fe.gl) := by simpa using hps
          rw [hpeq]
          exact glInUse_updateFirst_self _ _ _ (by intro x; rfl) (by intro x; rfl)
            ⟨fe, hfe_mem, rfl⟩
      · exact glsND_updateFirst _ _ _ (by intro x; rfl) hs.glsND
      · exact fresh_updateFirst _ _ _ _ (by intro x; rfl) hs.fresh
    · simp only [applyOp, h]
      have hvalslt : ∀ p ∈ s.contextMap, p.2 < s.nextId := by
        intro p hp
        obtain ⟨e, hemem, hegl, _⟩ := hs.bound p hp
        exact hegl ▸ hs.fresh e hemem
      have hglslt : ∀ g2 ∈ s.contexts.map (fun e => e.gl), g2 < s.nextId := by
        intro g2 hg2
        obtain ⟨e, hemem, heq⟩ := List.mem_map.mp hg2
        exact heq ▸ hs.fresh e hemem
      have hmap : mapSet s.contextMap c.id s.nextId =
          s.contextMap ++ [(c.id, s.nextId)] := mapSet_of_none _ _ _ hm
      refine { keysND := ?_, valsND := ?_, bound := ?_, glsND := ?_, fresh := ?_ }
      · show ((mapSet s.contextMap c.id s.nextId).map Prod.fst).Nodup
        rw [hmap, List.map_append]
        refine List.Nodup.append hs.keysND (List.nodup_singleton _) ?_
        intro a ha hb
        simp at hb
        subst hb
        obtain ⟨p, hp, hpk⟩ := List.mem_map.mp ha
        have := not_mem_of_mapGet_none _ _ hm p hp
        rw [hpk] at this
        simp at this
      · show ((mapSet s.contextMap c.id s.nextId).map Prod.snd).Nodup
        rw [hmap, List.map_append]
        refine List.Nodup.append hs.valsND (List.nodup_singleton _) ?_
        intro a ha hb
        simp at hb
        subst hb
        obtain ⟨p, hp, hpk⟩ := List.mem_map.mp ha
        have h1 := hvalslt p hp
        omega
      · intro p hp
        have hp2 : p ∈ s.contextMap ++ [(c.id, s.nextId)] := by
          rw [← hmap]
          exact hp
        rcases List.mem_append.mp hp2 with hpm | hps
        · have hne : p.2 ≠ s.nextId := Nat.ne_of_lt (hvalslt p hpm)
          refine (glInUse_updateFirst_ne _ _ _ _ (by intro x; rfl) hne).mpr ?_
          rw [glInUse_append]
          exact Or.inl (hs.bound p hpm)
        · have hpeq : p = (c.id, s.nextId) := by simpa using hps
          rw [hpeq]
          exact glInUse_updateFirst_self _ _ _ (by intro x; rfl) (by intro x; rfl)
            ⟨freshEntry s.nextId now,
              List.mem_append_right _ (List.mem_cons_self _ _), rfl⟩
      · refine glsND_updateFirst _ _ _ (by intro x; rfl) ?_
        rw [List.map_append]
        refine List.Nodup.append hs.glsND (List.nodup_singleton _) ?_
        intro a ha hb
        have hb2 : a = s.nextId := by simpa [freshEntry] using hb
        rw [hb2] at ha
        exact absurd (hglslt _ ha) (lt_irrefl _)
      · refine fresh_updateFirst _ _ _ _ (by intro x; rfl) ?_
        intro e he
        rcases List.mem_append.mp he with hel | her
        · exact Nat.lt_succ_of_lt (hs.fresh e hel)
        · have : e = freshEntry s.nextId now := by simpa using her
          rw [this]
          exact Nat.lt_succ_self _
    · simp only [applyOp, h]
      exact hs
  | release c t =>
    rcases releaseContext_cases s c t with h | ⟨g, hm, h⟩
    · simp only [applyOp, h]
      exact hs
    · simp only [applyOp, h]
      obtain ⟨q, hq, hqk, hqv⟩ := mapGet_some_mem _ _ _ hm
      refine { keysND := ?_, valsND := ?_, bound := ?_, glsND := ?_, fresh := ?_ }
      · exact hs.keysND.sublist (List.Sublist.map _ (List.filter_sublist _))
      · exact hs.valsND.sublist (List.Sublist.map _ (List.filter_sublist _))
      · intro p hp
        have hpm : p ∈ s.contextMap := List.mem_of_mem_filter hp
        have hpk : p.1 ≠ c.id := by
          have := List.of_mem_filter hp
          simpa using this
        have hne : p.2 ≠ g := by
          intro hpeq
          have hpq : p = q :=
            List.inj_on_of_nodup_map hs.valsND hpm hq (hpeq.trans hqv.symm)
          rw [hpq] at hpk
          exact hpk hqk
        exact (glInUse_updateFirst_ne _ _ _ _ (by intro x; rfl) hne).mpr
          (hs.bound p hpm)
      · exact glsND_updateFirst _ _ _ (by intro x; rfl) hs.glsND
      · exact fresh_updateFirst _ _ _ _ (by intro x; rfl) hs.fresh

theorem inv_initState (cap : Nat) : Inv (initState cap) := by
  refine { keysND := ?_, valsND := ?_, bound := ?_, glsND := ?_, fresh := ?_ } <;>
    simp [initState]

theorem inv_run (ops : List Op) (s : ManagerState) (hs : Inv s) :
    Inv (run s ops) := by
  induction ops generalizing s with
  | nil => exact hs
  | cons op rest ih => exact ih (applyOp s op) (inv_applyOp s op hs)

/-- C4: in every state reached from a fresh pool by acquire and release
operations, each logical target has at most one binding (pairwise-distinct
binding keys), each pool entry is the value of at most one live binding
(pairwise-distinct bound handles, over entries with pairwise-distinct
handles), and every entry referenced by a live binding is marked in use. -/
theorem binding_invariant (cap : Nat) (ops : List Op) :
    ((run (initState cap) ops).contextMap.map Prod.fst).Nodup ∧
    ((run (initState cap) ops).contextMap.map Prod.snd).Nodup ∧
    ((run (initState cap) ops).contexts.map (fun e => e.gl)).Nodup ∧
    ∀ p ∈ (run (initState cap) ops).contextMap,
      ∃ e ∈ (run (initState cap) ops).contexts,
        e.gl = p.2 ∧ e.isInUse = true := by
  have h := inv_run ops (initState cap) (inv_initState cap)
  exact ⟨h.keysND, h.valsND, h.glsND, h.bound⟩

/-! Filling a fresh pool to capacity (C6). -/

theorem updateFirst_append_left {α : Type} (l1 l2 : List α) (p : α → Bool)
    (f : α → α) (h : ∀ x ∈ l1, p x = false) :
    updateFirst (l1 ++ l2) p f = l1 ++ updateFirst l2 p f := by
  induction l1 with
  | nil => rfl
  | cons x xs ih =>
    have hx := h x (List.mem_cons_self x xs)
    simp only [List.cons_append, updateFirst, hx]
    simp only [Bool.false_eq_true, if_false, List.cons.injEq, true_and]
    exact ih fun y hy => h y (List.mem_cons_of_mem x hy)

theorem acquireSeq_fresh (ps : List (Canvas × Nat)) (s : ManagerState)
    (hbusy : ∀ e ∈ s.contexts, e.isInUse = true)
    (hfresh : ∀ e ∈ s.contexts, e.gl < s.nextId)
    (hunseen : ∀ p ∈ ps, mapGet s.contextMap p.1.id = none)
    (hnd : (ps.map (fun p => p.1.id)).Nodup)
    (hcap : s.contexts.length + ps.length ≤ s.maxContexts) :
    (acquireSeq s ps).2 = (List.range' s.nextId ps.length).map some ∧
    (∀ e ∈ (acquireSeq s ps).1.contexts, e.isInUse = true) ∧
    (∀ e ∈ (acquireSeq s ps).1.contexts, e.gl < (acquireSeq s ps).1.nextId) ∧
    (acquireSeq s ps).1.contexts.length = s.contexts.length + ps.length ∧
    (acquireSeq s ps).1.maxContexts = s.maxContexts ∧
    (acquireSeq s ps).1.nextId = s.nextId + ps.length ∧
    (∀ k, mapGet s.contextMap k = none → k ∉ ps.map (fun p => p.1.id) →
      mapGet (acquireSeq s ps).1.contextMap k = none) := by
  induction ps generalizing s with
  | nil =>
    exact ⟨rfl, hbusy, hfresh, rfl, rfl, rfl, fun k hk _ => hk⟩
  | cons p rest ih =>
    obtain ⟨c, t⟩ := p
    have hm : mapGet s.contextMap c.id = none :=
      hunseen (c, t) (List.mem_cons_self _ _)
    have hffree : s.contexts.find? (fun e => !e.isInUse) = none :=
      List.find?_eq_none.mpr (fun e he => by simp [hbusy e he])
    have hlt : s.contexts.length < s.maxContexts := by
      simp only [List.length_cons] at hcap
      omega
    have hstep := getContext_createOk s c t hm hffree hlt
    have hold : ∀ x ∈ s.contexts ,(x.gl == s.nextId) = false := by
      intro x hx
      have := hfresh x hx
      simp only [beq_eq_false_iff_ne, ne_eq]
      omega
    have hcontexts1 :
        (assignContextToCanvas { s with contexts := s.contexts ++ [freshEntry s.nextId t], nextId := s.nextId + 1 } s.nextId c t).contexts =
        s.contexts ++ [{ gl := s.nextId, canvasWidth := c.width, canvasHeight := c.height, isInUse := true, lastUsed := t, glState := GLState.fresh }] := by
      show updateFirst (s.contexts ++ [freshEntry s.nextId t]) _ _ = _
      rw [updateFirst_append_left _ _ _ _ hold]
      simp [updateFirst, freshEntry]
    have hmap1 :
        (assignContextToCanvas { s with contexts := s.contexts ++ [freshEntry s.nextId t], nextId := s.nextId + 1 } s.nextId c t).contextMap =
        s.contextMap ++ [(c.id, s.nextId)] := by
      show mapSet s.contextMap c.id s.nextId = _
      exact mapSet_of_none _ _ _ hm
    have hndrest : ((rest.map (fun p => p.1.id)).Nodup) ∧
        c.id ∉ rest.map (fun p => p.1.id) := by
      rw [List.map_cons, List.nodup_cons] at hnd
      exact ⟨hnd.2, hnd.1⟩
    have hbusy1 : ∀ e ∈ (assignContextToCanvas { s with contexts := s.contexts ++ [freshEntry s.nextId t], nextId := s.nextId + 1 } s.nextId c t).contexts, e.isInUse = true := by
      rw [hcontexts1]
      intro e he
      rcases List.mem_append.mp he with h1 | h2
      · exact hbusy e h1
      · have : e = { gl := s.nextId, canvasWidth := c.width, canvasHeight := c.height, isInUse := true, lastUsed := t, glState := GLState.fresh } := by
          simpa using h2
        rw [this]
    have hfresh1 : ∀ e ∈ (assignContextToCanvas { s with contexts := s.contexts ++ [freshEntry s.nextId t], nextId := s.nextId + 1 } s.nextId c t).contexts, e.gl < (assignContextToCanvas { s with contexts := s.contexts ++ [freshEntry s.nextId t], nextId := s.nextId + 1 } s.nextId c t).nextId := by
      rw [hcontexts1]
      intro e he
      show e.gl < s.nextId + 1
      rcases List.mem_append.mp he with h1 | h2
      · exact Nat.lt_succ_of_lt (hfresh e h1)
      · have : e = { gl := s.nextId, canvasWidth := c.width, canvasHeight := c.height, isInUse := true, lastUsed := t, glState := GLState.fresh } := by
          simpa using h2
        rw [this]
        exact Nat.lt_succ_self _
    have hunseen1 : ∀ p ∈ rest, mapGet (assignContextToCanvas { s with contexts := s.contexts ++ [freshEntry s.nextId t], nextId := s.nextId + 1 } s.nextId c t).contextMap p.1.id = none := by
      intro p hp
      rw [hmap1]
      have hne : p.1.id ≠ c.id := by
        intro heq
        exact hndrest.2 (heq ▸ List.mem_map_of_mem (fun p => p.1.id) hp)
      rw [mapGet_append_single_ne _ _ _ _ hne]
      exact hunseen p (List.mem_cons_of_mem _ hp)
    have hmax1 : (assignContextToCanvas { s with contexts := s.contexts ++ [freshEntry s.nextId t], nextId := s.nextId + 1 } s.nextId c t).maxContexts = s.maxContexts := rfl
    have hnext1 : (assignContextToCanvas { s with contexts := s.contexts ++ [freshEntry s.nextId t], nextId := s.nextId + 1 } s.nextId c t).nextId = s.nextId + 1 := rfl
    have hcap1 : (assignContextToCanvas { s with contexts := s.contexts ++ [freshEntry s.nextId t], nextId := s.nextId + 1 } s.nextId c t).contexts.length + rest.length ≤ (assignContextToCanvas { s with contexts := s.contexts ++ [freshEntry s.nextId t], nextId := s.nextId + 1 } s.nextId c t).maxContexts := by
      rw [hcontexts1, hmax1]
      simp only [List.length_append, List.length_cons, List.length_nil]
      simp only [List.length_cons] at hcap
      omega
    have ih1 := ih _ hbusy1 hfresh1 hunseen1 hndrest.1 hcap1
    obtain ⟨ihres, ihbusy, ihfresh, ihlen, ihmax, ihnext, ihkeys⟩ := ih1
    have hacq : acquireSeq s ((c, t) :: rest) =
        ((acquireSeq (assignContextToCanvas { s with contexts := s.contexts ++ [freshEntry s.nextId t], nextId := s.nextId + 1 } s.nextId c t) rest).1,
          some s.nextId :: (acquireSeq (assignContextToCanvas { s with contexts := s.contexts ++ [freshEntry s.nextId t], nextId := s.nextId + 1 } s.nextId c t) rest).2) := by
      simp only [acquireSeq, hstep]
    rw [hacq]
    refine ⟨?_, ihbusy, ?_, ?_, ?_, ?_, ?_⟩
    · simp only [List.length_cons, List.range'_succ, List.map_cons]
      rw [ihres, hnext1]
    · intro e he
      exact ihfresh e he
    · rw [ihlen, hcontexts1]
      simp only [List.length_append, List.length_cons, List.length_nil]
      omega
    · rw [ihmax, hmax1]
    · rw [ihnext, hnext1]
      simp only [List.length_cons]
      omega
    · intro k hk hknot
      simp only [List.map_cons, List.mem_cons, not_or] at hknot
      refine ihkeys k ?_ hknot.2
      rw [hmap1, mapGet_append_single_ne _ _ _ _ hknot.1]
      exact hk

/-- C6: from a fresh pool with capacity N, acquiring N pairwise-distinct
previously-unseen targets (platform creation succeeding) succeeds on every
call and returns the N pairwise-distinct contexts 0..N-1, and a subsequent
acquire of a further distinct target while none has been released returns
null (Exhausted). -/
theorem capacity_exhaustion (N : Nat) (ps : List (Canvas × Nat)) (c : Canvas)
    (t : Nat)
    (hlen : ps.length = N)
    (hnd : (ps.map (fun p => p.1.id)).Nodup)
    (hc : c.id ∉ ps.map (fun p => p.1.id)) :
    (acquireSeq (initState N) ps).2 = (List.range N).map some ∧
    (acquireSeq (initState N) ps).2.Nodup ∧
    (getContext (acquireSeq (initState N) ps).1 c t true).2 = none := by
  have h := acquireSeq_fresh ps (initState N)
    (by intro e he; simp [initState] at he)
    (by intro e he; simp [initState] at he)
    (by intro p hp; rfl)
    hnd
    (by simp [initState, hlen])
  obtain ⟨hres, hbusy, _, hlen2, hmax2, _, hkeys⟩ := h
  have hresN : (acquireSeq (initState N) ps).2 = (List.range N).map some := by
    rw [hres, List.range_eq_range', hlen]
    rfl
  refine ⟨hresN, ?_, ?_⟩
  · rw [hresN]
    exact (List.nodup_range N).map (Option.some_injective _)
  · have hm : mapGet (acquireSeq (initState N) ps).1.contextMap c.id = none :=
      hkeys c.id rfl hc
    have hffree : (acquireSeq (initState N) ps).1.contexts.find?
        (fun e => !e.isInUse) = none :=
      List.find?_eq_none.mpr (fun e he => by simp [hbusy e he])
    have hnlt : ¬ (acquireSeq (initState N) ps).1.contexts.length <
        (acquireSeq (initState N) ps).1.maxContexts := by
      rw [hlen2, hmax2]
      simp [initState, hlen]
    rw [getContext_atCapacity _ c t true hm hffree hnlt,
      evictionStep_of_no_free _ c t hffree]

/-- Witness for the C6 theorem with capacity 2 and the distinct targets
0, 1 followed by target 2. -/
theorem capacity_exhaustion_witness :
    (acquireSeq (initState 2) [(⟨0, 5, 5⟩, 0), (⟨1, 5, 5⟩, 1)]).2 =
      (List.range 2).map some ∧
    (acquireSeq (initState 2) [(⟨0, 5, 5⟩, 0), (⟨1, 5, 5⟩, 1)]).2.Nodup ∧
    (getContext (acquireSeq (initState 2)
      [(⟨0, 5, 5⟩, 0), (⟨1, 5, 5⟩, 1)]).1 ⟨2, 5, 5⟩ 2 true).2 = none := by
  exact capacity_exhaustion 2 [(⟨0, 5, 5⟩, 0), (⟨1, 5, 5⟩, 1)] ⟨2, 5, 5⟩ 2
    rfl (by decide) (by decide)

end Effects
